import Mathlib

/-!
Verification of the Agora workflow-orchestration core (`agora/__init__.py` and
`agora/engine.py`) against its natural-language specification.

The Python classes are shallowly embedded: Python dicts become association
lists over `String` keys, exceptions become `Except`, `None`-able results
become `Option`, in-place mutation of the shared-state dict becomes explicit
state passing (errors carry the state at the point of failure, mirroring
in-place mutation being visible to handlers), and the unbounded `while` loop
of flow orchestration takes an explicit fuel argument (`none` = still
running).  `copy.copy` (shallow copy of a node before each execution) is the
identity on the immutable node values of the embedding; its observable
purpose — per-run params/context assignment not leaking into the stored
graph — is inherent in the pure model, where `set_params`/`context`
assignment becomes the per-call `p`/`ctx` arguments of the node's run
function.
-/

namespace Agora

/-! ## Association-list model of Python `dict` (string keys)

`lookupA` models `d.get(k)`, `setA` models `d[k] = v` (replace the existing
binding in place, else append — Python dicts keep one binding per key and
preserve insertion order). -/

def lookupA {ν : Type} : List (String × ν) → String → Option ν
  | [], _ => none
  | (k0, v0) :: rest, k => if k0 = k then some v0 else lookupA rest k

def setA {ν : Type} : List (String × ν) → String → ν → List (String × ν)
  | [], k, v => [(k, v)]
  | (k0, v0) :: rest, k, v =>
      if k0 = k then (k, v) :: rest else (k0, v0) :: setA rest k v

/-! ## Python exceptions and the retrying executor (`Node._exec`, lines 147-172)

`PyExc` distinguishes the `NotImplementedError` raised by the un-overridden
`BaseNode.exec` (lines 47-52) from other exceptions.  A node's `exec` body is
embedded as `exec : P → Nat → Except PyExc (Option R)`: it receives the prep
result and the current attempt index (Python `exec` may behave differently
across attempts, e.g. by reading external state), and returns either an
exception or a value, where `Option R` makes Python's `None` result explicit
(`none` = returned `None`).  `overridden` records whether
`type(self).exec is BaseNode.exec` is false. -/

inductive PyExc where
  | notImplementedError
  | other (code : Nat)
  deriving DecidableEq, Repr

/-- One call of `self.exec(prep_res)` followed by the not-overridden check of
`Node._exec` lines 152-160: if `exec` is not overridden it is
`BaseNode.exec`, which raises `NotImplementedError` (lines 47-52); if it is
overridden and returns `None`, the identity check `type(self).exec is
BaseNode.exec` is false, so no error is raised. -/
def execAttempt {P R : Type} (overridden : Bool) (exec : P → Nat → Except PyExc (Option R))
    (p : P) (i : Nat) : Except PyExc (Option R) :=
  match (if overridden then exec p i else .error .notImplementedError) with
  | .error e => .error e
  | .ok r => if r.isNone && !overridden then .error .notImplementedError else .ok r

/-- The retry loop of `Node._exec` (lines 147-172):
`for self.cur_retry in range(self.max_retries)`, one `execAttempt` per
iteration; on success return the result; on exception at the last index
(`cur_retry == max_retries - 1`) return `exec_fallback(prep_res, e)`;
otherwise sleep `wait` seconds (time is not modelled) and continue.
`remaining` counts the iterations the `range` still has; falling off the
loop (only possible when `max_retries = 0`, i.e. `range` empty) returns
Python `None`, embedded as the outer `none`.  The two `Nat`s count the calls
of `exec` (i.e. of `execAttempt`) and of `exec_fallback`. -/
def execLoop {P R : Type} (overridden : Bool) (exec : P → Nat → Except PyExc (Option R))
    (fallback : P → PyExc → Except PyExc (Option R)) (maxRetries : Nat) (p : P) :
    Nat → Nat → Option (Except PyExc (Option R)) × Nat × Nat
  | _, 0 => (none, 0, 0)
  | curRetry, remaining + 1 =>
      match execAttempt overridden exec p curRetry with
      | .ok r => (some (.ok r), 1, 0)
      | .error e =>
          if curRetry = maxRetries - 1 then (some (fallback p e), 1, 1)
          else
            let rest := execLoop overridden exec fallback maxRetries p (curRetry + 1) remaining
            (rest.1, rest.2.1 + 1, rest.2.2)

/-- `Node._exec(prep_res)`: run the retry loop from `cur_retry = 0` with
`max_retries` iterations available. -/
def nodeExecWithRetry {P R : Type} (overridden : Bool)
    (exec : P → Nat → Except PyExc (Option R))
    (fallback : P → PyExc → Except PyExc (Option R)) (maxRetries : Nat) (p : P) :
    Option (Except PyExc (Option R)) × Nat × Nat :=
  execLoop overridden exec fallback maxRetries p 0 maxRetries

/-- `Node.exec_fallback` default implementation (lines 143-145): re-raise the
exception. -/
def defaultFallback {P R : Type} (_p : P) (e : PyExc) : Except PyExc (Option R) :=
  .error e

/-! ## `BaseNode._run` (lines 83-111)

The lifecycle phases mutate the shared dict in place; the embedding threads
the state explicitly, and an exception carries the state at the point it was
raised (`Except (E × S)`), mirroring that `on_error(exc, shared)` sees the
mutations made before the failure.  Note the source places
`self.before_run(shared)` BEFORE the `try:` block (line 87 vs 90), so a
`before_run` exception is never seen by `on_error`. -/

def tryBody {S P R L E : Type}
    (prep : S → Except (E × S) (P × S))
    (execPhase : P → Except E R)
    (post : S → P → R → Except (E × S) (L × S))
    (afterRun : S → Except (E × S) S)
    (s : S) : Except (E × S) (L × S) :=
  match prep s with
  | .error es => .error es
  | .ok (p, s1) =>
      match execPhase p with
      | .error e => .error (e, s1)
      | .ok r =>
          match post s1 p r with
          | .error es => .error es
          | .ok (l, s2) =>
              match afterRun s2 with
              | .error es => .error es
              | .ok s3 => .ok (l, s3)

/-- `BaseNode._run(shared)`: `before_run` outside the `try`, then
prep/exec/post/after_run inside it, with the `except` clause delegating to
`on_error(exc, shared)` (lines 108-111). -/
def baseRun {S P R L E : Type}
    (beforeRun : S → Except (E × S) S)
    (prep : S → Except (E × S) (P × S))
    (execPhase : P → Except E R)
    (post : S → P → R → Except (E × S) (L × S))
    (afterRun : S → Except (E × S) S)
    (onErr : E → S → Except (E × S) (L × S))
    (s : S) : Except (E × S) (L × S) :=
  match beforeRun s with
  | .error es => .error es
  | .ok s1 =>
      match tryBody prep execPhase post afterRun s1 with
      | .ok out => .ok out
      | .error (e, s') => onErr e s'

/-- `BaseNode.on_error` default implementation (lines 59-62): re-raise. -/
def defaultOnError {S L E : Type} (e : E) (s : S) : Except (E × S) (L × S) :=
  .error (e, s)

/-! ## Successor registration (`BaseNode.next`, lines 36-43) and routing
(`Flow.get_next_node`, lines 209-223)

`nextReg` models `next(node, action)`: warn (`warnings.warn`) when the
action is already registered, then assign `self.successors[action] = node`
— a plain dict assignment, so it overwrites and never throws.  The returned
`Bool` is the warning flag.  `getNextNode` models
`curr.successors.get(action or "default")` plus the warning decision: warn
exactly when the lookup misses and the table is non-empty (node objects are
always truthy, so `if nxt:` is `isSome`). -/

def nextReg {ν : Type} (succs : List (String × ν)) (node : ν) (action : String) :
    List (String × ν) × Bool :=
  (setA succs action node, (lookupA succs action).isSome)

/-- `action or "default"` for an `Option String` label: Python `None` and
the empty string are falsy, every other string is truthy. -/
def normalizeAction : Option String → String
  | none => "default"
  | some s => if s = "" then "default" else s

def getNextNode {ν : Type} (succs : List (String × ν)) (a : Option String) :
    Option ν × Bool :=
  match lookupA succs (normalizeAction a) with
  | some n => (some n, false)
  | none => (none, !succs.isEmpty)

/-! ## Flow orchestration (`Flow._orch`, lines 225-255; `Flow._run`, 257-266)

A graph node is embedded as its full `_run` behaviour (a function of the
params and context assigned by the orchestrator plus the shared state,
returning the outcome label or the exception escaping the node's own
`on_error`) together with its successor table.  `AsyncFlow._orch_async`
(lines 537-569) has the identical control flow with `await` at each step and
is covered by the same definition.  The `while curr:` loop gets an explicit
fuel; `none` means the loop is still running after `fuel` nodes.  `orchF`
also returns the list of recorded outcome labels (one per executed node, in
order) and the number of warnings emitted by `get_next_node`. -/

inductive GNode (S P C E : Type) where
  | mk (run : P → C → S → Except (E × S) (Option String × S))
       (succs : List (String × GNode S P C E))

inductive OrchRes (S E : Type) where
  | ok (last : Option String) (s : S) (trace : List (Option String)) (warns : Nat)
  | err (e : E) (s : S)
  deriving DecidableEq

/-- `p = params or {**self.params}` (line 230): the params the flow assigns
onto every node it executes (`curr.set_params(p)`); `{**...}` shallow-copies,
which is the identity here. -/
def orchParams {P : Type} : Option P → P → P
  | some q, _ => q
  | none, fp => fp

def orchF {S P C E : Type} (ctx : C) (p : P) :
    Nat → GNode S P C E → S → Option (OrchRes S E)
  | 0, _, _ => none
  | fuel + 1, .mk run succs, s =>
      match run p ctx s with
      | .error (e, s') => some (.err e s')
      | .ok (a, s') =>
          match getNextNode succs a with
          | (some nxt, _) =>
              match orchF ctx p fuel nxt s' with
              | none => none
              | some (.ok a2 s2 tr w) => some (.ok a2 s2 (a :: tr) w)
              | some (.err e s2) => some (.err e s2)
          | (none, warn) => some (.ok a s' [a] (if warn then 1 else 0))

/-- `Flow._run(shared)` (lines 257-266) for a plain `Flow`: `before_run`,
`prep` and `after_run` are the inherited `BaseNode` no-ops, `Flow.post`
(line 268) returns `exec_res` unchanged, and the default `on_error`
re-raises, so the run returns the orchestration's last action, or propagates
the escaped exception. -/
def flowRun {S P C E : Type} (fuel : Nat) (ctx : C) (flowParams : P)
    (start : GNode S P C E) (s : S) : Option (Except (E × S) (Option String × S)) :=
  match orchF ctx (orchParams none flowParams) fuel start s with
  | none => none
  | some (.ok a s' _ _) => some (.ok (a, s'))
  | some (.err e s') => some (.error (e, s'))

/-! ## Batch node (`BatchNode._exec`, lines 175-191, and
`AsyncBatchNode._exec_async`, lines 435-452 — identical control flow, the
async variant merely awaits each per-item call)

`len(items or [])` treats an absent (`None`) prep result like an empty
list.  Each item goes through the full retrying executor
(`super()._exec(item)`); an exception escaping an item's retry/fallback
aborts the loop and propagates; a per-item `None` result (only possible
with `max_retries = 0`) is appended like any other value.  The two `Nat`s
accumulate the exec-call and fallback-call counts of all items. -/

def batchExecList {P R : Type} (overridden : Bool) (exec : P → Nat → Except PyExc (Option R))
    (fallback : P → PyExc → Except PyExc (Option R)) (maxRetries : Nat) :
    List P → Except PyExc (List (Option R)) × Nat × Nat
  | [] => (.ok [], 0, 0)
  | item :: rest =>
      let r := nodeExecWithRetry overridden exec fallback maxRetries item
      match r.1 with
      | some (.error e) => (.error e, r.2.1, r.2.2)
      | some (.ok v) =>
          let rr := batchExecList overridden exec fallback maxRetries rest
          (rr.1.map (fun l => v :: l), r.2.1 + rr.2.1, r.2.2 + rr.2.2)
      | none =>
          let rr := batchExecList overridden exec fallback maxRetries rest
          (rr.1.map (fun l => none :: l), r.2.1 + rr.2.1, r.2.2 + rr.2.2)

def batchExec {P R : Type} (overridden : Bool) (exec : P → Nat → Except PyExc (Option R))
    (fallback : P → PyExc → Except PyExc (Option R)) (maxRetries : Nat)
    (itemsOpt : Option (List P)) : Except PyExc (List (Option R)) × Nat × Nat :=
  let items := itemsOpt.getD []
  if items.length = 0 then (.ok [], 0, 0)
  else batchExecList overridden exec fallback maxRetries items

instance {ε α : Type} [DecidableEq ε] [DecidableEq α] : DecidableEq (Except ε α) :=
  fun a b =>
    match a, b with
    | .error x, .error y =>
        decidable_of_iff (x = y) ⟨fun h => by rw [h], fun h => by cases h; rfl⟩
    | .error _, .ok _ => isFalse (fun h => Except.noConfusion h)
    | .ok _, .error _ => isFalse (fun h => Except.noConfusion h)
    | .ok x, .ok y =>
        decidable_of_iff (x = y) ⟨fun h => by rw [h], fun h => by cases h; rfl⟩

/-! ## Parallel batch node (`AsyncParallelBatchNode._exec_async`, lines 455-489)

`process_item` (lines 464-484) repeats the retry loop of `Node._exec` with
the item in the prep-result position (`exec_fallback_async(item, e)`); the
per-item tasks are dispatched in input order by the list comprehension and
joined with `asyncio.gather`.  The cooperative scheduler may complete the
tasks in any order; the embedding makes that explicit as `order`, the list
of task indices in completion order.  `gatherOut` is the fan-in: each
completion stores its result in the slot of its own index, and the joined
list reads the slots in index order — so the output order is a function of
the index, never of completion time.  A slot still `none` would be a task
that never completed; every execution of `asyncio.gather` completes all
tasks (`order` covers every index) unless one raises. -/

def processItem {I R : Type} (overridden : Bool) (exec : I → Nat → Except PyExc (Option R))
    (fallback : I → PyExc → Except PyExc (Option R)) (maxRetries : Nat) (item : I) :
    Option (Except PyExc (Option R)) :=
  (nodeExecWithRetry overridden exec fallback maxRetries item).1

def fillSlots {R : Type} (tasks : List R) : List Nat → (Nat → Option R) → Nat → Option R
  | [], acc => acc
  | i :: rest, acc => fillSlots tasks rest (fun j => if j = i then tasks[i]? else acc j)

def gatherOut {R : Type} (tasks : List R) (order : List Nat) : List (Option R) :=
  (List.range tasks.length).map (fillSlots tasks order (fun _ => none))

def parallelBatchExec {I R : Type} (overridden : Bool)
    (exec : I → Nat → Except PyExc (Option R))
    (fallback : I → PyExc → Except PyExc (Option R)) (maxRetries : Nat)
    (items : List I) (order : List Nat) :
    List (Option (Option (Except PyExc (Option R)))) :=
  if items.isEmpty then []
  else gatherOut (items.map (processItem overridden exec fallback maxRetries)) order

/-! ## Python values and the EventEngine (`engine.py`)

`PyVal` is the value type of the shared-state dict where the engine's
reserved keys live; `truthy` is Python truthiness of `shared.get(k, False)`
for the values modelled. -/

inductive PyVal where
  | vbool (b : Bool)
  | vint (n : Int)
  | vstr (s : String)
  | vnone
  | vlist (l : List PyVal)

def truthy : Option PyVal → Bool
  | none => false
  | some (.vbool b) => b
  | some (.vint n) => n != 0
  | some (.vstr s) => s != ""
  | some .vnone => false
  | some (.vlist l) => !l.isEmpty

/-- Engine-level failures: the cycle-limit `RuntimeError` raised by
`_run_flow_cycle` (line 122, message `Flow exceeded maximum cycles`) is a
distinct constructor from an exception propagating out of the flow body
(ordinary node failure). -/
inductive EngineErr (E : Type) where
  | maxCyclesExceeded (limit : Nat)
  | body (e : E)
  deriving DecidableEq

/-- `EventEngine._run_flow_cycle` (engine.py lines 93-161).  `body` is one
full flow cycle minus the recursion bookkeeping: `before_run_async`,
`prep_async`, `_orchestrate` and `post_async`/`after_run_async`, returning
(`last_action`, `post_async` result, mutated shared state) or an escaping
exception.  The function checks `cycle_count >= max_cycles` first and
raises the distinct cycle-limit error; runs the body; and if
`shared.get("_recurse_flow", False)` is truthy, sets the flag to `False`
and recurses with `cycle_count + 1`.  The returned `Nat` counts the cycles
executed; the returned value is `result if result is not None else
last_action` (line 161). -/
def runFlowCycle {E : Type} (maxCycles : Nat)
    (body : List (String × PyVal) →
      Except E (Option String × Option String × List (String × PyVal)))
    (cycleCount : Nat) (shared : List (String × PyVal)) :
    Except (EngineErr E) (Option String × List (String × PyVal) × Nat) :=
  if _h : maxCycles ≤ cycleCount then .error (.maxCyclesExceeded maxCycles)
  else
    match body shared with
    | .error e => .error (.body e)
    | .ok (lastAction, result, s') =>
        if truthy (lookupA s' "_recurse_flow") then
          match runFlowCycle maxCycles body (cycleCount + 1)
              (setA s' "_recurse_flow" (.vbool false)) with
          | .error er => .error er
          | .ok (v, s2, n) => .ok (v, s2, n + 1)
        else
          .ok ((match result with | some r => some r | none => lastAction), s', 1)
termination_by maxCycles - cycleCount
decreasing_by omega

/-! ## Batch flows (`AsyncBatchFlow._orch_async`, lines 636-653, and
`AsyncParallelBatchFlow._orch_async`, lines 656-671)

Each item runs a full sub-flow (`super()._orch_async`, i.e. the AsyncFlow
orchestration loop) on a fresh dict `{"item": item, **shared}` — a dict
literal whose `"item"` entry is written first and then every entry of
`shared` is inserted over it, so an existing `"item"` key of `shared`
overrides the injected item.  The sub-orchestration is a parameter of the
embedding (it receives only the freshly built per-item dict, exactly as in
the source); only the per-item terminal label feeds back.  After the loop
the one and only write to the outer shared state happens:
`shared["batch_results"] = results`.  The parallel variant runs the same
per-item computations as gather tasks (dispatch in input order, fan-in by
index).  Only an absent or list-valued `shared["items"]` is modelled. -/

def labelVal : Option String → PyVal
  | none => .vnone
  | some s => .vstr s

/-- The dict literal `{"item": item, **shared}`: start from the `"item"`
binding, then insert every binding of `shared` in order (later keys
override earlier ones). -/
def mergeItemShared (item : PyVal) (shared : List (String × PyVal)) :
    List (String × PyVal) :=
  shared.foldl (fun d kv => setA d kv.1 kv.2) [("item", item)]

/-- `items = params or shared.get("items", [])` (lines 639/659): a truthy
(non-empty) `params` is used as the item collection, otherwise the
list under `shared["items"]`, defaulting to empty. -/
def batchItems (paramsOpt : Option (List PyVal)) (shared : List (String × PyVal)) :
    List PyVal :=
  match paramsOpt with
  | some ps =>
      if ps.isEmpty then
        match lookupA shared "items" with
        | some (.vlist l) => l
        | _ => []
      else ps
  | none =>
      match lookupA shared "items" with
      | some (.vlist l) => l
      | _ => []

def asyncBatchFlowOrch
    (subOrch : Option (List PyVal) → List (String × PyVal) →
      Option String × List (String × PyVal))
    (paramsOpt : Option (List PyVal)) (shared : List (String × PyVal)) :
    List (Option String) × List (String × PyVal) :=
  let items := batchItems paramsOpt shared
  let results := items.map (fun item => (subOrch paramsOpt (mergeItemShared item shared)).1)
  (results, setA shared "batch_results" (.vlist (results.map labelVal)))

def asyncParallelBatchFlowOrch
    (subOrch : Option (List PyVal) → List (String × PyVal) →
      Option String × List (String × PyVal))
    (paramsOpt : Option (List PyVal)) (shared : List (String × PyVal))
    (order : List Nat) :
    List (Option String) × List (String × PyVal) :=
  let items := batchItems paramsOpt shared
  let tasks := items.map (fun item => (subOrch paramsOpt (mergeItemShared item shared)).1)
  let results := (gatherOut tasks order).map (fun o => o.getD none)
  (results, setA shared "batch_results" (.vlist (results.map labelVal)))

/-! ## Theorems -/

@[simp] theorem lookupA_nil {ν : Type} (k : String) :
    lookupA ([] : List (String × ν)) k = none := rfl

theorem lookupA_cons {ν : Type} (k0 k : String) (v0 : ν) (rest : List (String × ν)) :
    lookupA ((k0, v0) :: rest) k = if k0 = k then some v0 else lookupA rest k := rfl

theorem lookupA_setA_self {ν : Type} (d : List (String × ν)) (k : String) (v : ν) :
    lookupA (setA d k v) k = some v := by
  induction d with
  | nil => simp [setA, lookupA]
  | cons hd tl ih =>
      obtain ⟨k0, v0⟩ := hd
      by_cases h : k0 = k
      · simp [setA, h, lookupA]
      · simp [setA, h, lookupA, ih]

theorem lookupA_setA_ne {ν : Type} (d : List (String × ν)) (k k' : String) (v : ν)
    (h : k' ≠ k) : lookupA (setA d k v) k' = lookupA d k' := by
  induction d with
  | nil => simp [setA, lookupA, Ne.symm h]
  | cons hd tl ih =>
      obtain ⟨k0, v0⟩ := hd
      by_cases h0 : k0 = k
      · subst h0
        simp [setA, lookupA, Ne.symm h]
      · simp [setA, h0, lookupA, ih]

theorem lookupA_eq_none_of_not_mem_keys {ν : Type} (d : List (String × ν)) (k : String)
    (h : k ∉ d.map Prod.fst) : lookupA d k = none := by
  induction d with
  | nil => rfl
  | cons hd tl ih =>
      obtain ⟨k0, v0⟩ := hd
      simp only [List.map_cons, List.mem_cons] at h
      push_neg at h
      simp [lookupA, Ne.symm h.1, ih h.2]

theorem keys_setA_of_mem {ν : Type} (d : List (String × ν)) (k : String) (v : ν)
    (h : k ∈ d.map Prod.fst) :
    (setA d k v).map Prod.fst = d.map Prod.fst := by
  induction d with
  | nil => simp at h
  | cons hd tl ih =>
      obtain ⟨k0, v0⟩ := hd
      by_cases h0 : k0 = k
      · simp [setA, h0]
      · simp only [List.map_cons, List.mem_cons] at h
        rcases h with h | h
        · exact absurd h.symm h0
        · simp [setA, h0, ih h]

theorem keys_setA_of_not_mem {ν : Type} (d : List (String × ν)) (k : String) (v : ν)
    (h : k ∉ d.map Prod.fst) :
    (setA d k v).map Prod.fst = d.map Prod.fst ++ [k] := by
  induction d with
  | nil => simp [setA]
  | cons hd tl ih =>
      obtain ⟨k0, v0⟩ := hd
      simp only [List.map_cons, List.mem_cons] at h
      push_neg at h
      simp [setA, Ne.symm h.1, ih h.2]

theorem keys_nodup_setA {ν : Type} (d : List (String × ν)) (k : String) (v : ν)
    (h : (d.map Prod.fst).Nodup) : ((setA d k v).map Prod.fst).Nodup := by
  by_cases hm : k ∈ d.map Prod.fst
  · rw [keys_setA_of_mem d k v hm]; exact h
  · rw [keys_setA_of_not_mem d k v hm]
    refine List.Nodup.append h (List.nodup_singleton k) ?_
    intro a ha hb
    simp only [List.mem_singleton] at hb
    subst hb
    exact hm ha

theorem countP_key_setA {ν : Type} (d : List (String × ν)) (k : String) (v : ν)
    (h : (d.map Prod.fst).Nodup) :
    ((setA d k v).countP (fun kv => kv.1 = k)) = 1 := by
  induction d with
  | nil => simp [setA, List.countP_cons]
  | cons hd tl ih =>
      obtain ⟨k0, v0⟩ := hd
      simp only [List.map_cons, List.nodup_cons] at h
      by_cases h0 : k0 = k
      · subst h0
        have hz : tl.countP (fun kv => decide (kv.1 = k0)) = 0 := by
          rw [List.countP_eq_zero]
          intro kv hkv hdec
          rw [decide_eq_true_eq] at hdec
          exact h.1 (List.mem_map.mpr ⟨kv, hkv, hdec⟩)
        simp [setA, List.countP_cons, hz]
      · simp [setA, h0, List.countP_cons, ih h.2]

theorem execAttempt_overridden {P R : Type} (exec : P → Nat → Except PyExc (Option R))
    (p : P) (i : Nat) : execAttempt true exec p i = exec p i := by
  unfold execAttempt
  match exec p i with
  | .error e => rfl
  | .ok r => simp

theorem execAttempt_not_overridden {P R : Type} (exec : P → Nat → Except PyExc (Option R))
    (p : P) (i : Nat) : execAttempt false exec p i = .error .notImplementedError := rfl

theorem execLoop_execCalls_le {P R : Type} (overridden : Bool)
    (exec : P → Nat → Except PyExc (Option R)) (fallback : P → PyExc → Except PyExc (Option R))
    (maxRetries : Nat) (p : P) (curRetry remaining : Nat) :
    (execLoop overridden exec fallback maxRetries p curRetry remaining).2.1 ≤ remaining := by
  induction remaining generalizing curRetry with
  | zero => simp [execLoop]
  | succ n ih =>
      unfold execLoop
      match execAttempt overridden exec p curRetry with
      | .ok r => simp
      | .error e =>
          by_cases hc : curRetry = maxRetries - 1
          · simp [hc]
          · simpa [hc] using Nat.succ_le_succ (ih (curRetry + 1))

/-- If the attempts at indices `c, c+1, …, c+k-2` fail and the attempt at
`c + k - 1` succeeds with `r`, and the loop from `c` still has at least `k`
of its `maxRetries` iterations (with `c + remaining = maxRetries`), then the
loop returns `ok r` after exactly `k` exec calls and no fallback call. -/
theorem execLoop_success {P R : Type} (overridden : Bool)
    (exec : P → Nat → Except PyExc (Option R)) (fallback : P → PyExc → Except PyExc (Option R))
    (maxRetries : Nat) (p : P) (r : Option R) :
    ∀ (k c remaining : Nat), c + remaining = maxRetries → 1 ≤ k → k ≤ remaining →
    (∀ i, i < k - 1 → ∃ e, execAttempt overridden exec p (c + i) = .error e) →
    execAttempt overridden exec p (c + (k - 1)) = .ok r →
    execLoop overridden exec fallback maxRetries p c remaining = (some (.ok r), k, 0) := by
  intro k
  induction k with
  | zero => intro c remaining _ h1 _ _ _; omega
  | succ k ih =>
      intro c remaining hsum _ hk hfail hsucc
      match remaining, hk with
      | remaining + 1, _ =>
        by_cases hk0 : k = 0
        · subst hk0
          simp only [Nat.add_sub_cancel, Nat.add_zero] at hsucc
          unfold execLoop
          rw [hsucc]
        · have hfail0 : ∃ e, execAttempt overridden exec p c = .error e := by
            have := hfail 0 (by omega)
            simpa using this
          obtain ⟨e, he⟩ := hfail0
          have hc : c ≠ maxRetries - 1 := by omega
          unfold execLoop
          rw [he]
          simp only [hc, if_false]
          have hrec := ih (c + 1) remaining (by omega) (by omega) (by omega)
            (fun i hi => by
              have := hfail (i + 1) (by omega)
              simpa [Nat.add_assoc, Nat.add_comm 1 i] using this)
            (by
              have : c + 1 + (k - 1) = c + (k + 1 - 1) := by omega
              rw [this]; exact hsucc)
          rw [hrec]

/-- If all `remaining` attempts from index `c` fail (with `c + remaining =
maxRetries` and at least one iteration left), the loop calls the fallback
exactly once, on the exception of the final attempt (index
`maxRetries - 1`), after `remaining` exec calls. -/
theorem execLoop_all_fail {P R : Type} (overridden : Bool)
    (exec : P → Nat → Except PyExc (Option R)) (fallback : P → PyExc → Except PyExc (Option R))
    (maxRetries : Nat) (p : P) (errs : Nat → PyExc) :
    ∀ (remaining c : Nat), c + remaining = maxRetries → 1 ≤ remaining →
    (∀ i, i < remaining → execAttempt overridden exec p (c + i) = .error (errs (c + i))) →
    execLoop overridden exec fallback maxRetries p c remaining =
      (some (fallback p (errs (maxRetries - 1))), remaining, 1) := by
  intro remaining
  induction remaining with
  | zero => intro c _ h1 _; omega
  | succ n ih =>
      intro c hsum _ hfail
      have he0 : execAttempt overridden exec p c = .error (errs c) := by
        have := hfail 0 (by omega)
        simpa using this
      by_cases hn : n = 0
      · subst hn
        have hc : c = maxRetries - 1 := by omega
        unfold execLoop
        rw [he0]
        simp [hc]
      · have hc : c ≠ maxRetries - 1 := by omega
        unfold execLoop
        rw [he0]
        simp only [hc, if_false]
        have hrec := ih (c + 1) (by omega) (by omega)
          (fun i hi => by
            have := hfail (i + 1) (by omega)
            simpa [Nat.add_assoc, Nat.add_comm 1 i] using this)
        rw [hrec]

theorem tryBody_error_of_prep {S P R L E : Type}
    (prep : S → Except (E × S) (P × S)) (execPhase : P → Except E R)
    (post : S → P → R → Except (E × S) (L × S)) (afterRun : S → Except (E × S) S)
    (s s' : S) (e : E) (hp : prep s = .error (e, s')) :
    tryBody prep execPhase post afterRun s = .error (e, s') := by
  unfold tryBody; rw [hp]

theorem tryBody_error_of_exec {S P R L E : Type}
    (prep : S → Except (E × S) (P × S)) (execPhase : P → Except E R)
    (post : S → P → R → Except (E × S) (L × S)) (afterRun : S → Except (E × S) S)
    (s s1 : S) (p : P) (e : E)
    (hp : prep s = .ok (p, s1)) (he : execPhase p = .error e) :
    tryBody prep execPhase post afterRun s = .error (e, s1) := by
  simp only [tryBody, hp, he]

theorem tryBody_error_of_post {S P R L E : Type}
    (prep : S → Except (E × S) (P × S)) (execPhase : P → Except E R)
    (post : S → P → R → Except (E × S) (L × S)) (afterRun : S → Except (E × S) S)
    (s s1 s' : S) (p : P) (r : R) (e : E)
    (hp : prep s = .ok (p, s1)) (he : execPhase p = .ok r)
    (hpo : post s1 p r = .error (e, s')) :
    tryBody prep execPhase post afterRun s = .error (e, s') := by
  simp only [tryBody, hp, he, hpo]

theorem tryBody_error_of_afterRun {S P R L E : Type}
    (prep : S → Except (E × S) (P × S)) (execPhase : P → Except E R)
    (post : S → P → R → Except (E × S) (L × S)) (afterRun : S → Except (E × S) S)
    (s s1 s2 s' : S) (p : P) (r : R) (l : L) (e : E)
    (hp : prep s = .ok (p, s1)) (he : execPhase p = .ok r)
    (hpo : post s1 p r = .ok (l, s2)) (ha : afterRun s2 = .error (e, s')) :
    tryBody prep execPhase post afterRun s = .error (e, s') := by
  simp only [tryBody, hp, he, hpo, ha]

/-! ## Claim theorems C3, C4, C5 -/

/-- C3: for every retrying Node with `max_retries = N ≥ 1`: `exec` is
attempted at most `N` times; if `exec` fails on the first `k - 1` attempts
and succeeds on attempt `k ≤ N`, the retry loop returns the successful
result with exactly `k` exec calls and the fallback never invoked; if `exec`
fails on all `N` attempts, `exec_fallback` is invoked exactly once with the
prep result and the last attempt's exception; and the default
`exec_fallback` re-raises its exception. -/
theorem nodeRetry_contract {P R : Type} (N : Nat) (hN : 1 ≤ N)
    (exec : P → Nat → Except PyExc (Option R))
    (fallback : P → PyExc → Except PyExc (Option R)) (p : P) :
    (nodeExecWithRetry true exec fallback N p).2.1 ≤ N
    ∧ (∀ k r, 1 ≤ k → k ≤ N → (∀ i, i < k - 1 → ∃ e, exec p i = .error e) →
        exec p (k - 1) = .ok r →
        nodeExecWithRetry true exec fallback N p = (some (.ok r), k, 0))
    ∧ (∀ errs : Nat → PyExc, (∀ i, i < N → exec p i = .error (errs i)) →
        nodeExecWithRetry true exec fallback N p = (some (fallback p (errs (N - 1))), N, 1))
    ∧ (∀ e, defaultFallback (P := P) (R := R) p e = .error e) := by
  refine ⟨execLoop_execCalls_le true exec fallback N p 0 N, ?_, ?_, fun _ => rfl⟩
  · intro k r hk1 hkN hfail hsucc
    exact execLoop_success true exec fallback N p r k 0 N (by omega) hk1 hkN
      (fun i hi => by
        obtain ⟨e, he⟩ := hfail i hi
        exact ⟨e, by simpa [execAttempt_overridden] using he⟩)
      (by simpa [execAttempt_overridden] using hsucc)
  · intro errs hfail
    exact execLoop_all_fail true exec fallback N p errs N 0 (by omega) hN
      (fun i hi => by simpa [execAttempt_overridden] using hfail i hi)

/-- C3 witness: `max_retries = 3`, `exec` fails on attempts 1 and 2 and
succeeds on attempt 3: the result is the success value, 3 exec calls, no
fallback call. -/
theorem nodeRetry_contract_witness :
    nodeExecWithRetry true (fun (_ : Unit) i => if i < 2 then .error (.other 0) else .ok (some 5))
      defaultFallback 3 () = (some (.ok (some 5)), 3, 0) := by
  have h := (nodeRetry_contract 3 (by decide)
    (fun (_ : Unit) i => if i < 2 then .error (.other 0) else .ok (some 5))
    defaultFallback ()).2.1
  exact h 3 (some 5)
    (by decide) (by decide)
    (fun i hi => ⟨.other 0, by
      have h2 : i < 2 := by omega
      simp [h2]⟩)
    rfl

/-- C4 counterexample: a retrying Node (`max_retries = 2`) whose subclass
does not override `exec`.  The claim says the `NotImplementedError` is
raised immediately and unconditionally, never retried and never swallowed,
regardless of the fallback hook.  In the code (`Node._exec`, lines 147-172)
the error raised by `BaseNode.exec` is caught by the generic
`except Exception` of the retry loop like any other failure: here `exec` is
attempted twice (exec-call count 2, i.e. retried) and the overridden
fallback turns it into a successful result `42` (swallowed). -/
theorem notOverridden_retried_and_swallowed :
    nodeExecWithRetry false (fun (_ : Unit) _ => .ok (none : Option Nat))
      (fun _ _ => .ok (some 42)) 2 () = (some (.ok (some 42)), 2, 1) := rfl

/-- C4 (amended): for every retrying Node whose subclass does not override
`exec`, every attempt raises `NotImplementedError`, and the error is handled
like any ordinary execution failure: `exec` is attempted `max_retries` times
and the error is then delegated exactly once to `exec_fallback` (receiving
`NotImplementedError`); with the default fallback the error is re-raised, so
by default it still propagates, but a non-default fallback can swallow it. -/
theorem notOverridden_contract {P R : Type} (N : Nat) (hN : 1 ≤ N)
    (exec : P → Nat → Except PyExc (Option R))
    (fallback : P → PyExc → Except PyExc (Option R)) (p : P) :
    nodeExecWithRetry false exec fallback N p =
      (some (fallback p .notImplementedError), N, 1)
    ∧ nodeExecWithRetry false exec defaultFallback N p =
      (some (.error .notImplementedError), N, 1) := by
  constructor
  · exact execLoop_all_fail false exec fallback N p (fun _ => .notImplementedError) N 0
      (by omega) hN (fun i _ => execAttempt_not_overridden exec p (0 + i))
  · exact execLoop_all_fail false exec defaultFallback N p (fun _ => .notImplementedError) N 0
      (by omega) hN (fun i _ => execAttempt_not_overridden exec p (0 + i))

/-- C4 witness for the amended claim at `max_retries = 2` with the default
fallback: two attempts, then the `NotImplementedError` propagates. -/
theorem notOverridden_contract_witness :
    nodeExecWithRetry false (fun (_ : Unit) _ => .ok (none : Option Nat))
      defaultFallback 2 () = (some (.error .notImplementedError), 2, 1) :=
  (notOverridden_contract 2 (by decide) (fun (_ : Unit) _ => .ok (none : Option Nat))
    defaultFallback ()).2

/-- C5 counterexample: `before_run` raises, `on_error` is overridden to
swallow every exception (returning label `42`).  The claim says any
exception from prepare/post/before_run/after_run is caught at the run
boundary and delegated to `on_error`; but `self.before_run(shared)` sits
BEFORE the `try:` in `BaseNode._run` (line 87), so the run propagates the
error `(7, 1)` instead of delegating (which would have produced
`.ok (42, 1)`). -/
theorem beforeRun_error_bypasses_onError :
    baseRun (fun (s : Nat) => .error (7, s + 1))
      (fun s => .ok (((), s) : Unit × Nat))
      (fun _ => .ok ())
      (fun s _ _ => .ok ((0, s) : Nat × Nat))
      (fun s => .ok s)
      (fun _ s => .ok (42, s)) 0 = .error (7, 1)
    ∧ (Except.error (7, 1) : Except (Nat × Nat) (Nat × Nat)) ≠ .ok (42, 1) :=
  ⟨rfl, fun h => Except.noConfusion h⟩

/-- C5 (amended): an exception raised inside the `try` block of
`BaseNode._run` — in prepare, the execute phase, post, or after_run — is not
retried and is caught exactly once at the run boundary, where it is
delegated to `on_error(exception, shared)` with the shared state as mutated
up to the failure; the default `on_error` re-raises, so by default the
exception propagates to the Flow/caller.  An exception in `before_run`,
however, is raised before the `try` block and propagates directly, without
passing through `on_error`. -/
theorem lifecycleError_contract {S P R L E : Type}
    (beforeRun : S → Except (E × S) S) (prep : S → Except (E × S) (P × S))
    (execPhase : P → Except E R) (post : S → P → R → Except (E × S) (L × S))
    (afterRun : S → Except (E × S) S) (onErr : E → S → Except (E × S) (L × S))
    (s s1 s' : S) (e : E)
    (hb : beforeRun s = .ok s1)
    (hfail : tryBody prep execPhase post afterRun s1 = .error (e, s')) :
    baseRun beforeRun prep execPhase post afterRun onErr s = onErr e s'
    ∧ baseRun beforeRun prep execPhase post afterRun defaultOnError s = .error (e, s')
    ∧ (∀ es, beforeRun s = .error es →
        baseRun beforeRun prep execPhase post afterRun onErr s = .error es) := by
  refine ⟨?_, ?_, ?_⟩
  · simp only [baseRun, hb, hfail]
  · simp only [baseRun, hb, hfail, defaultOnError]
  · intro es hes; rw [hes] at hb; cases hb

/-- C5 witness: `prep` raises exception `3` after mutating the shared state
from `0` to `1`; the overridden `on_error` receives exactly that exception
and state and turns them into the label `99`. -/
theorem lifecycleError_contract_witness :
    baseRun (fun (s : Nat) => .ok s)
      (fun s => (.error (3, s + 1) : Except (Nat × Nat) (Unit × Nat)))
      (fun _ => .ok ())
      (fun s _ _ => .ok ((0, s) : Nat × Nat))
      (fun s => .ok s)
      (fun e s => .ok (e + 96, s)) 0 = .ok (99, 1) :=
  (lifecycleError_contract (fun (s : Nat) => .ok s)
    (fun s => (.error (3, s + 1) : Except (Nat × Nat) (Unit × Nat)))
    (fun _ => .ok ())
    (fun s _ _ => .ok ((0, s) : Nat × Nat))
    (fun s => .ok s)
    (fun e s => .ok (e + 96, s)) 0 0 1 3 rfl rfl).1

theorem getLast?_cons_of_getLast? {α : Type} (a b : α) (l : List α)
    (h : l.getLast? = some b) : (a :: l).getLast? = some b := by
  cases l with
  | nil => simp at h
  | cons c l' => rw [List.getLast?_cons_cons]; exact h

theorem orchF_trace_last {S P C E : Type} (ctx : C) (p : P) :
    ∀ (fuel : Nat) (n : GNode S P C E) (s : S) (a : Option String) (s' : S)
      (tr : List (Option String)) (w : Nat),
    orchF ctx p fuel n s = some (.ok a s' tr w) → tr.getLast? = some a := by
  intro fuel
  induction fuel with
  | zero => intro n s a s' tr w h; cases h
  | succ f ih =>
      intro n s a s' tr w h
      obtain ⟨run, succs⟩ := n
      simp only [orchF] at h
      split at h
      · cases h
      · split at h
        · split at h
          · cases h
          · simp only [Option.some.injEq, OrchRes.ok.injEq] at h
            obtain ⟨ha, _, htr, _⟩ := h
            subst ha htr
            exact getLast?_cons_of_getLast? _ _ _ (ih _ _ _ _ _ _ (by assumption))
          · cases h
        · simp only [Option.some.injEq, OrchRes.ok.injEq] at h
          obtain ⟨ha, _, htr, _⟩ := h
          subst ha htr
          simp

/-! ## Claim theorems C1, C2, C9 -/

/-- C1: for every flow run, orchestration starts at (a shallow copy of) the
start node and repeats: assign the flow's context and params onto the node
(modelled as the `p`/`ctx` arguments of its run function), run its full
lifecycle, record the returned outcome label, resolve the successor by that
label, and continue there; when no successor is resolved the loop terminates
and the last recorded label is the orchestration result, which the Flow's
own `post` (default: pass through unchanged) turns into the flow's return
value.  In particular a start node without successors executes exactly one
node (trace `[a]`) and emits no warning. -/
theorem flowOrch_contract {S P C E : Type} (ctx : C) (fp : P) (fuel : Nat)
    (run : P → C → S → Except (E × S) (Option String × S)) (s : S) :
    (∀ a s', run fp ctx s = .ok (a, s') →
      orchF ctx (orchParams none fp) (fuel + 1) (GNode.mk run []) s = some (.ok a s' [a] 0)
      ∧ flowRun (fuel + 1) ctx fp (GNode.mk run []) s = some (.ok (a, s')))
    ∧ (∀ (n : GNode S P C E) (a : Option String) (s' : S) tr w,
        orchF ctx fp fuel n s = some (.ok a s' tr w) → tr.getLast? = some a)
    ∧ (∀ (succs : List (String × GNode S P C E)) a s' nxt wa,
        run fp ctx s = .ok (a, s') →
        getNextNode succs a = (some nxt, wa) →
        orchF ctx fp (fuel + 1) (GNode.mk run succs) s =
          match orchF ctx fp fuel nxt s' with
          | none => none
          | some (.ok a2 s2 tr w) => some (.ok a2 s2 (a :: tr) w)
          | some (.err e s2) => some (.err e s2))
    ∧ (∀ (start : GNode S P C E) a s' tr w,
        orchF ctx (orchParams none fp) fuel start s = some (.ok a s' tr w) →
        flowRun fuel ctx fp start s = some (.ok (a, s'))) := by
  refine ⟨?_, ?_, ?_, ?_⟩
  · intro a s' hrun
    have h1 : orchF ctx (orchParams none fp) (fuel + 1) (GNode.mk run []) s =
        some (.ok a s' [a] 0) := by
      simp only [orchF, orchParams, hrun, getNextNode, normalizeAction, lookupA_nil,
        List.isEmpty_nil]
      rfl
    refine ⟨h1, ?_⟩
    unfold flowRun
    rw [h1]
  · intro n a s' tr w h
    exact orchF_trace_last ctx fp fuel n s a s' tr w h
  · intro succs a s' nxt wa hrun hnext
    simp only [orchF, hrun, hnext]
  · intro start a s' tr w h
    unfold flowRun
    rw [h]

/-- C1 witness: a one-node flow whose node increments the shared counter and
returns label `"done"`: the orchestration executes exactly that node, emits
no warning, and the flow returns `"done"` with the mutated state. -/
theorem flowOrch_contract_witness :
    orchF () () 4 (GNode.mk (E := Unit) (fun _ _ (s : Nat) => .ok (some "done", s + 1)) []) 0 =
      some (.ok (some "done") 1 [some "done"] 0)
    ∧ flowRun 4 () () (GNode.mk (E := Unit) (fun _ _ (s : Nat) => .ok (some "done", s + 1)) []) 0 =
      some (.ok (some "done", 1)) :=
  (flowOrch_contract () () 3 (fun _ _ (s : Nat) => .ok (some "done", s + 1)) 0).1
    (some "done") 1 rfl

/-- C2: for every current node and outcome label, `get_next_node` normalizes
`None`/empty labels to `"default"`; returns the mapped node (no warning)
when the normalized label is a key of the successor table; warns and returns
no successor when the label misses a non-empty table — and orchestration
then terminates at this node with the unmatched label as its final value;
and returns no successor with no warning when the table is empty. -/
theorem getNextNode_contract {S P C E : Type} (ctx : C) (p : P) :
    (∀ (ν : Type) (succs : List (String × ν)),
      getNextNode succs none = getNextNode succs (some "default")
      ∧ getNextNode succs (some "") = getNextNode succs (some "default"))
    ∧ (∀ (ν : Type) (succs : List (String × ν)) (a : Option String) (n : ν),
        lookupA succs (normalizeAction a) = some n →
        getNextNode succs a = (some n, false))
    ∧ (∀ (ν : Type) (succs : List (String × ν)) (a : Option String),
        lookupA succs (normalizeAction a) = none → succs ≠ [] →
        getNextNode succs a = (none, true))
    ∧ (∀ (ν : Type) (a : Option String),
        getNextNode ([] : List (String × ν)) a = (none, false))
    ∧ (∀ (fuel : Nat) (run : P → C → S → Except (E × S) (Option String × S))
         (succs : List (String × GNode S P C E)) (s : S) (a : Option String) (s' : S),
        run p ctx s = .ok (a, s') → lookupA succs (normalizeAction a) = none →
        orchF ctx p (fuel + 1) (GNode.mk run succs) s =
          some (.ok a s' [a] (if succs.isEmpty then 0 else 1))) := by
  refine ⟨?_, ?_, ?_, ?_, ?_⟩
  · intro ν succs
    constructor <;> rfl
  · intro ν succs a n h
    unfold getNextNode
    rw [h]
  · intro ν succs a h hne
    unfold getNextNode
    rw [h]
    cases succs with
    | nil => exact absurd rfl hne
    | cons hd tl => simp
  · intro ν a
    unfold getNextNode
    simp [lookupA_nil]
  · intro fuel run succs s a s' hrun hmiss
    have hget : getNextNode succs a = (none, !succs.isEmpty) := by
      unfold getNextNode; rw [hmiss]
    simp only [orchF, hrun, hget]
    cases succs <;> simp

/-- C2 witness: Scenario C shape — the node's label `"y"` misses the
non-empty table `[("x", …)]`, so lookup warns and returns no successor, and
a one-node orchestration over that table ends with final label `"y"` and one
warning; plus the empty-table and normalization cases at concrete inputs. -/
theorem getNextNode_contract_witness :
    getNextNode [("x", 1)] (some "y") = (none, true)
    ∧ getNextNode ([] : List (String × Nat)) (some "y") = (none, false)
    ∧ getNextNode [("default", 7)] none = getNextNode [("default", 7)] (some "default")
    ∧ orchF () () 3 (GNode.mk (E := Unit)
        (fun _ _ (s : Nat) => .ok (some "y", s + 1))
        [("x", GNode.mk (fun _ _ s => .ok (none, s)) [])]) 0 =
      some (.ok (some "y") 1 [some "y"] 1) := by
  refine ⟨?_, ?_, ?_, ?_⟩
  · exact (getNextNode_contract (S := Nat) (P := Unit) (C := Unit) (E := Unit) () ()).2.2.1
      Nat [("x", 1)] (some "y") rfl (by simp)
  · exact (getNextNode_contract (S := Nat) (P := Unit) (C := Unit) (E := Unit) () ()).2.2.2.1
      Nat (some "y")
  · exact ((getNextNode_contract (S := Nat) (P := Unit) (C := Unit) (E := Unit) () ()).1
      Nat [("default", 7)]).1
  · exact (getNextNode_contract (S := Nat) (P := Unit) (C := Unit) (E := Unit) () ()).2.2.2.2
      2 (fun _ _ (s : Nat) => .ok (some "y", s + 1))
      [("x", GNode.mk (fun _ _ s => .ok (none, s)) [])] 0 (some "y") 1 rfl rfl

/-- C9: registering successor `A` under label `L` and then successor `B`
under `L` leaves `B` as the sole successor registered for `L`
(last-write-wins, exactly one entry with key `L`), emits a warning on the
second registration, and does not throw (`nextReg` is total); registering a
previously unused label emits no warning. -/
theorem successor_overwrite_contract {ν : Type} (succs : List (String × ν))
    (hnd : (succs.map Prod.fst).Nodup) (A B : ν) (L : String) :
    lookupA (nextReg (nextReg succs A L).1 B L).1 L = some B
    ∧ (nextReg (nextReg succs A L).1 B L).2 = true
    ∧ ((nextReg (nextReg succs A L).1 B L).1.countP (fun kv => kv.1 = L)) = 1
    ∧ (lookupA succs L = none → (nextReg succs A L).2 = false) := by
  refine ⟨?_, ?_, ?_, ?_⟩
  · unfold nextReg
    exact lookupA_setA_self (setA succs L A) L B
  · unfold nextReg
    simp [lookupA_setA_self succs L A]
  · unfold nextReg
    exact countP_key_setA (setA succs L A) L B (keys_nodup_setA succs L A hnd)
  · intro h
    unfold nextReg
    rw [h]
    rfl

/-- C9 witness: on the table `[("x", 1)]`, registering `2` then `3` under
the fresh label `"y"`: the first registration emits no warning, the second
warns, and afterwards `"y"` maps to `3` and has exactly one entry. -/
theorem successor_overwrite_contract_witness :
    lookupA (nextReg (nextReg [("x", 1)] 2 "y").1 3 "y").1 "y" = some 3
    ∧ (nextReg (nextReg [("x", 1)] 2 "y").1 3 "y").2 = true
    ∧ ((nextReg (nextReg [("x", 1)] 2 "y").1 3 "y").1.countP (fun kv => kv.1 = "y")) = 1
    ∧ (nextReg [("x", 1)] 2 "y").2 = false := by
  have h := successor_overwrite_contract [("x", 1)] (by simp) 2 3 "y"
  exact ⟨h.1, h.2.1, h.2.2.1, h.2.2.2 rfl⟩

theorem fillSlots_eq {R : Type} (tasks : List R) :
    ∀ (order : List Nat) (acc : Nat → Option R) (j : Nat),
    fillSlots tasks order acc j = if j ∈ order then tasks[j]? else acc j := by
  intro order
  induction order with
  | nil => intro acc j; simp [fillSlots]
  | cons i rest ih =>
      intro acc j
      unfold fillSlots
      rw [ih]
      by_cases hj : j ∈ rest
      · simp [hj]
      · by_cases hji : j = i
        · subst hji; simp [hj]
        · simp [hj, hji]

theorem gatherOut_eq_map_some {R : Type} (tasks : List R) (order : List Nat)
    (h : ∀ j, j < tasks.length → j ∈ order) :
    gatherOut tasks order = tasks.map some := by
  unfold gatherOut
  apply List.ext_getElem
  · simp
  · intro i h1 h2
    simp only [List.getElem_map, List.getElem_range]
    rw [fillSlots_eq]
    have hi : i < tasks.length := by simpa using h1
    rw [if_pos (h i hi), List.getElem?_eq_getElem hi]

theorem batchExecList_all_ok {P R : Type} (overridden : Bool)
    (exec : P → Nat → Except PyExc (Option R))
    (fallback : P → PyExc → Except PyExc (Option R)) (N : Nat) (f : P → Option R) :
    ∀ (items : List P),
    (∀ it ∈ items, (nodeExecWithRetry overridden exec fallback N it).1 = some (.ok (f it))) →
    (batchExecList overridden exec fallback N items).1 = .ok (items.map f) := by
  intro items
  induction items with
  | nil => intro _; rfl
  | cons item rest ih =>
      intro h
      have hhd := h item (List.mem_cons_self item rest)
      have hih := ih (fun it hit => h it (List.mem_cons_of_mem item hit))
      unfold batchExecList
      simp only [hhd]
      rw [List.map_cons]
      cases hrr : (batchExecList overridden exec fallback N rest).1 with
      | error e => rw [hrr] at hih; cases hih
      | ok l =>
          rw [hrr] at hih
          simp only [Except.ok.injEq] at hih
          subst hih
          rfl

/-! ## Claim theorems C6, C7, C8, C10 -/

/-- C8: for every batch node (sequential sync `BatchNode._exec` or async
`AsyncBatchNode._exec_async`), an empty or absent (`None`) prepared input
collection yields `(ok [], 0, 0)`: the empty result list, no error, and
zero per-item lifecycle invocations — `exec` and `exec_fallback` are never
called; a non-empty collection whose every item's retrying execute returns
`ok (f it)` yields the ordered list of the per-element results. -/
theorem batchNode_contract {P R : Type} (overridden : Bool)
    (exec : P → Nat → Except PyExc (Option R))
    (fallback : P → PyExc → Except PyExc (Option R)) (N : Nat) :
    batchExec overridden exec fallback N none = (.ok [], 0, 0)
    ∧ batchExec overridden exec fallback N (some []) = (.ok [], 0, 0)
    ∧ (∀ (items : List P) (f : P → Option R),
        (∀ it ∈ items, (nodeExecWithRetry overridden exec fallback N it).1 = some (.ok (f it))) →
        (batchExec overridden exec fallback N (some items)).1 = .ok (items.map f)) := by
  refine ⟨rfl, rfl, ?_⟩
  intro items f h
  cases items with
  | nil => rfl
  | cons it rest =>
      unfold batchExec
      rw [if_neg (by simp)]
      exact batchExecList_all_ok overridden exec fallback N f (it :: rest) h

/-- C8 witness: Scenario D — the batch node given `None` or `[]` returns
`[]` with zero exec and fallback calls; given `[10, 20]` with a per-item
execute that increments, it returns `[11, 21]` in order. -/
theorem batchNode_contract_witness :
    batchExec true (fun (p : Nat) _ => .ok (some (p + 1))) defaultFallback 1 none =
      (.ok [], 0, 0)
    ∧ batchExec true (fun (p : Nat) _ => .ok (some (p + 1))) defaultFallback 1 (some []) =
      (.ok [], 0, 0)
    ∧ (batchExec true (fun (p : Nat) _ => .ok (some (p + 1))) defaultFallback 1
        (some [10, 20])).1 = .ok [some 11, some 21] := by
  refine ⟨(batchNode_contract true (fun (p : Nat) _ => .ok (some (p + 1)))
      defaultFallback 1).1,
    (batchNode_contract true (fun (p : Nat) _ => .ok (some (p + 1))) defaultFallback 1).2.1,
    ?_⟩
  exact ((batchNode_contract true (fun (p : Nat) _ => .ok (some (p + 1)))
    defaultFallback 1).2.2 [10, 20] (fun p => some (p + 1)) (by decide)).trans rfl

/-- C7: for every concurrent batch execution over items `x_1 … x_n` and every
completion order of the per-item tasks (any covering sequence of task
indices), the joined result list equals the input-order list of per-item
retry/fallback results: it has length `n` and its `i`-th element is
`processItem x_i`, so fan-in does not reorder; and since each slot holds its
own item's result, an item whose failure was recovered by its fallback
leaves every sibling's result in place. -/
theorem parallelBatch_contract {I R : Type} (overridden : Bool)
    (exec : I → Nat → Except PyExc (Option R))
    (fallback : I → PyExc → Except PyExc (Option R)) (N : Nat)
    (items : List I) (order : List Nat)
    (horder : ∀ j, j < items.length → j ∈ order) :
    parallelBatchExec overridden exec fallback N items order =
      items.map (fun x => some (processItem overridden exec fallback N x))
    ∧ (parallelBatchExec overridden exec fallback N items order).length = items.length := by
  have hmain : parallelBatchExec overridden exec fallback N items order =
      items.map (fun x => some (processItem overridden exec fallback N x)) := by
    unfold parallelBatchExec
    by_cases he : items.isEmpty
    · rw [if_pos he]
      rw [List.isEmpty_iff] at he
      subst he; rfl
    · rw [if_neg he]
      rw [gatherOut_eq_map_some _ _ (by simpa using horder), List.map_map]
      rfl
  exact ⟨hmain, by rw [hmain]; simp⟩

/-- C7 witness: two items, the second one failing and recovered by its
fallback (result `100`), joined under the reversed completion order
`[1, 0]`: the output is still in input order, `[item 1's result, item 2's
fallback result]`, and the first item's result is untouched. -/
theorem parallelBatch_contract_witness :
    parallelBatchExec true (fun (i : Nat) _ => if i = 2 then .error (.other 9) else .ok (some i))
      (fun _ _ => .ok (some 100)) 1 [1, 2] [1, 0] =
      [some (some (.ok (some 1))), some (some (.ok (some 100)))] :=
  ((parallelBatch_contract true
    (fun (i : Nat) _ => if i = 2 then .error (.other 9) else .ok (some i))
    (fun _ _ => .ok (some 100)) 1 [1, 2] [1, 0] (by decide)).1).trans rfl

/-- C6: for every EventEngine flow run: (i) when a cycle's body completes
with the reserved `"_recurse_flow"` key truthy in the shared state, the
engine re-runs the flow as cycle `N + 1` on the state with the flag set to
`False` (falsy); (ii) the number of executed cycles is bounded by
`max_cycles - cycle_count`; (iii) a body that always re-sets the flag makes
the run fail with the distinct `maxCyclesExceeded` error — never silently
capped; (iv) that error is distinct from every ordinary node/body
failure. -/
theorem eventEngine_contract {E : Type} (maxCycles : Nat)
    (body : List (String × PyVal) →
      Except E (Option String × Option String × List (String × PyVal))) :
    (∀ c s la r s', c < maxCycles → body s = .ok (la, r, s') →
      truthy (lookupA s' "_recurse_flow") = true →
      runFlowCycle maxCycles body c s =
        (match runFlowCycle maxCycles body (c + 1)
            (setA s' "_recurse_flow" (.vbool false)) with
         | .error er => .error er
         | .ok (v, s2, n) => .ok (v, s2, n + 1))
      ∧ truthy (lookupA (setA s' "_recurse_flow" (.vbool false)) "_recurse_flow") = false)
    ∧ (∀ c s v s2 n, runFlowCycle maxCycles body c s = .ok (v, s2, n) →
        n ≤ maxCycles - c)
    ∧ (∀ c s,
        (∀ s0, ∃ la r s', body s0 = .ok (la, r, s')
          ∧ truthy (lookupA s' "_recurse_flow") = true) →
        runFlowCycle maxCycles body c s = .error (.maxCyclesExceeded maxCycles))
    ∧ (∀ e : E, (EngineErr.maxCyclesExceeded (E := E) maxCycles) ≠ .body e) := by
  refine ⟨?_, ?_, ?_, ?_⟩
  · intro c s la r s' hc hbody htr
    constructor
    · generalize hg : runFlowCycle maxCycles body (c + 1)
        (setA s' "_recurse_flow" (.vbool false)) = X
      unfold runFlowCycle
      rw [dif_neg (by omega), hbody]
      simp only [htr, if_true]
      rw [hg]
    · rw [lookupA_setA_self]
      rfl
  · have key : ∀ k c s v s2 n, maxCycles - c ≤ k →
        runFlowCycle maxCycles body c s = .ok (v, s2, n) → n ≤ maxCycles - c := by
      intro k
      induction k with
      | zero =>
          intro c s v s2 n hk h
          unfold runFlowCycle at h
          rw [dif_pos (by omega)] at h
          cases h
      | succ k ih =>
          intro c s v s2 n hk h
          unfold runFlowCycle at h
          by_cases hc : maxCycles ≤ c
          · rw [dif_pos hc] at h; cases h
          · rw [dif_neg hc] at h
            cases hbody : body s with
            | error e => rw [hbody] at h; cases h
            | ok out =>
                obtain ⟨la, r, s'⟩ := out
                rw [hbody] at h
                by_cases htr : truthy (lookupA s' "_recurse_flow") = true
                · simp only [htr, if_true] at h
                  cases hrec : runFlowCycle maxCycles body (c + 1)
                      (setA s' "_recurse_flow" (.vbool false)) with
                  | error er => rw [hrec] at h; cases h
                  | ok out2 =>
                      obtain ⟨v2, s22, n2⟩ := out2
                      rw [hrec] at h
                      simp only [Except.ok.injEq, Prod.mk.injEq] at h
                      obtain ⟨_, _, hn⟩ := h
                      have hb := ih (c + 1) _ _ _ _ (by omega) hrec
                      omega
                · simp only [Bool.not_eq_true] at htr
                  simp only [htr, Bool.false_eq_true, if_false, Except.ok.injEq,
                    Prod.mk.injEq] at h
                  obtain ⟨_, _, hn⟩ := h
                  omega
    intro c s v s2 n h
    exact key (maxCycles - c) c s v s2 n (le_refl _) h
  · have key : ∀ k c s, maxCycles - c ≤ k →
        (∀ s0, ∃ la r s', body s0 = .ok (la, r, s')
          ∧ truthy (lookupA s' "_recurse_flow") = true) →
        runFlowCycle maxCycles body c s = .error (.maxCyclesExceeded maxCycles) := by
      intro k
      induction k with
      | zero =>
          intro c s hk _
          unfold runFlowCycle
          rw [dif_pos (by omega)]
      | succ k ih =>
          intro c s hk hb
          by_cases hc : maxCycles ≤ c
          · unfold runFlowCycle
            rw [dif_pos hc]
          · obtain ⟨la, r, s', hbody, htr⟩ := hb s
            unfold runFlowCycle
            rw [dif_neg hc, hbody]
            simp only [htr, if_true]
            rw [ih (c + 1) _ (by omega) hb]
    intro c s hb
    exact key (maxCycles - c) c s (le_refl _) hb
  · intro e h
    cases h

/-- C6 witness: a body that always sets the recurse flag drives the engine
through its 2 allowed cycles and then fails with the distinct
`maxCyclesExceeded 2` error, which is not a `body` error. -/
theorem eventEngine_contract_witness :
    runFlowCycle (E := Unit) 2
      (fun s => .ok (some "a", none, setA s "_recurse_flow" (.vbool true))) 0 [] =
      .error (.maxCyclesExceeded 2)
    ∧ (EngineErr.maxCyclesExceeded (E := Unit) 2) ≠ .body () := by
  constructor
  · exact (eventEngine_contract (E := Unit) 2
      (fun s => .ok (some "a", none, setA s "_recurse_flow" (.vbool true)))).2.2.1 0 []
      (fun s0 => ⟨some "a", none, setA s0 "_recurse_flow" (.vbool true), rfl, by
        rw [lookupA_setA_self]; rfl⟩)
  · exact (eventEngine_contract (E := Unit) 2
      (fun s => .ok (some "a", none, setA s "_recurse_flow" (.vbool true)))).2.2.2 ()

theorem lookupA_foldl_setA {ν : Type} :
    ∀ (l : List (String × ν)), (l.map Prod.fst).Nodup →
    ∀ (d0 : List (String × ν)) (k : String),
    lookupA (l.foldl (fun d kv => setA d kv.1 kv.2) d0) k =
      match lookupA l k with
      | some v => some v
      | none => lookupA d0 k := by
  intro l
  induction l with
  | nil => intro _ d0 k; rfl
  | cons kv0 rest ih =>
      intro hnd d0 k
      obtain ⟨k0, v0⟩ := kv0
      simp only [List.map_cons, List.nodup_cons] at hnd
      rw [List.foldl_cons]
      rw [ih hnd.2]
      by_cases hk : k0 = k
      · subst hk
        rw [lookupA_eq_none_of_not_mem_keys rest k0 hnd.1]
        rw [lookupA_cons, if_pos rfl]
        simp [lookupA_setA_self]
      · rw [lookupA_cons, if_neg hk]
        cases hlr : lookupA rest k with
        | some v => simp
        | none => simp [lookupA_setA_ne d0 k0 k v0 (Ne.symm hk)]

/-- C10: for every batch flow run (sequential or parallel): the per-item
sub-flow is orchestrated on a fresh dict `{"item": item, **shared}`; the
only top-level key the batch orchestration writes into the outer shared
state is `"batch_results"`, set to the per-item terminal results in input
order; the result does not depend on anything the sub-flow writes into its
per-item dict (only on the returned labels), so sub-flow writes are
invisible in the outer shared state; an existing `"item"` key of the outer
shared state shadows the injected per-item value in the merged dict, and
every other key of the merged dict comes from the outer shared state; the
parallel variant produces the same results and shared-state update for
every covering completion order. -/
theorem batchFlow_frame_contract
    (subOrch : Option (List PyVal) → List (String × PyVal) →
      Option String × List (String × PyVal))
    (paramsOpt : Option (List PyVal)) (shared : List (String × PyVal))
    (hnd : (shared.map Prod.fst).Nodup) :
    (∀ k, k ≠ "batch_results" →
      lookupA (asyncBatchFlowOrch subOrch paramsOpt shared).2 k = lookupA shared k)
    ∧ lookupA (asyncBatchFlowOrch subOrch paramsOpt shared).2 "batch_results" =
        some (.vlist ((batchItems paramsOpt shared).map
          (fun item => labelVal (subOrch paramsOpt (mergeItemShared item shared)).1)))
    ∧ (∀ subOrch',
        (∀ pa d, (subOrch pa d).1 = (subOrch' pa d).1) →
        asyncBatchFlowOrch subOrch paramsOpt shared =
          asyncBatchFlowOrch subOrch' paramsOpt shared)
    ∧ (∀ item v, lookupA shared "item" = some v →
        lookupA (mergeItemShared item shared) "item" = some v)
    ∧ (∀ item, lookupA shared "item" = none →
        lookupA (mergeItemShared item shared) "item" = some item)
    ∧ (∀ item k, k ≠ "item" →
        lookupA (mergeItemShared item shared) k = lookupA shared k)
    ∧ (∀ order, (∀ j, j < (batchItems paramsOpt shared).length → j ∈ order) →
        asyncParallelBatchFlowOrch subOrch paramsOpt shared order =
          asyncBatchFlowOrch subOrch paramsOpt shared) := by
  refine ⟨?_, ?_, ?_, ?_, ?_, ?_, ?_⟩
  · intro k hk
    unfold asyncBatchFlowOrch
    exact lookupA_setA_ne shared "batch_results" k _ hk
  · unfold asyncBatchFlowOrch
    rw [lookupA_setA_self, List.map_map]
    rfl
  · intro subOrch' hsub
    unfold asyncBatchFlowOrch
    have he : (fun item => (subOrch paramsOpt (mergeItemShared item shared)).1) =
        (fun item => (subOrch' paramsOpt (mergeItemShared item shared)).1) :=
      funext (fun item => hsub paramsOpt (mergeItemShared item shared))
    rw [he]
  · intro item v h
    unfold mergeItemShared
    rw [lookupA_foldl_setA shared hnd, h]
  · intro item h
    unfold mergeItemShared
    rw [lookupA_foldl_setA shared hnd, h]
    simp [lookupA_cons]
  · intro item k hk
    unfold mergeItemShared
    rw [lookupA_foldl_setA shared hnd]
    cases hls : lookupA shared k with
    | some v => simp
    | none => simp [lookupA_cons, Ne.symm hk]
  · intro order horder
    have hg := gatherOut_eq_map_some
      ((batchItems paramsOpt shared).map
        (fun item => (subOrch paramsOpt (mergeItemShared item shared)).1)) order
      (by simpa using horder)
    simp only [asyncParallelBatchFlowOrch, asyncBatchFlowOrch, hg, List.map_map]
    rfl

/-- C10 witness: outer shared state `[("item", 9), ("x", 1)]` already holds
an `"item"` key; batch items `[7]`; a sub-flow that returns label `"ok"`
and writes a junk key into its per-item dict.  The outer state keeps
`x = 1`, gains only `batch_results = ["ok"]`, and the merged per-item dict
shows the shadowing: its `"item"` is the outer `9`, not the injected `7`. -/
theorem batchFlow_frame_contract_witness :
    lookupA (asyncBatchFlowOrch
        (fun _ d => (some "ok", setA d "junk" (.vint 5)))
        (some [.vint 7]) [("item", .vint 9), ("x", .vint 1)]).2 "x" = some (.vint 1)
    ∧ lookupA (asyncBatchFlowOrch
        (fun _ d => (some "ok", setA d "junk" (.vint 5)))
        (some [.vint 7]) [("item", .vint 9), ("x", .vint 1)]).2 "batch_results" =
      some (.vlist [.vstr "ok"])
    ∧ lookupA (mergeItemShared (.vint 7) [("item", .vint 9), ("x", .vint 1)]) "item" =
      some (.vint 9) := by
  refine ⟨?_, ?_, ?_⟩
  · exact ((batchFlow_frame_contract
      (fun _ d => (some "ok", setA d "junk" (.vint 5)))
      (some [.vint 7]) [("item", .vint 9), ("x", .vint 1)] (by decide)).1
      "x" (by decide)).trans rfl
  · exact ((batchFlow_frame_contract
      (fun _ d => (some "ok", setA d "junk" (.vint 5)))
      (some [.vint 7]) [("item", .vint 9), ("x", .vint 1)] (by decide)).2.1).trans rfl
  · exact (batchFlow_frame_contract
      (fun _ d => (some "ok", setA d "junk" (.vint 5)))
      (some [.vint 7]) [("item", .vint 9), ("x", .vint 1)] (by decide)).2.2.2.1
      (.vint 7) (.vint 9) rfl

end Agora

